import Mathlib

/-!
Shallow embedding of `numpy/_core/src/umath/override.c`: the ufunc
override-dispatch resolver (`PyUFunc_CheckOverride` and its helpers
`get_array_ufunc_overrides`, `initialize_normal_kwds`,
`normalize_signature_keyword`, `copy_positional_args_to_kwargs`).

Modelling conventions:
* A Python object participating as an operand is an `Operand` carrying an
  identity `oid` and a runtime type identity `ty` (`Py_TYPE`).
* The `__array_ufunc__` capability is looked up on the runtime type
  (CPython special-method lookup), so the environment maps a type id to a
  `Capability`; handlers are identified by a `hid` and their behaviour when
  called is `Env.behavior hid`.
* `PyObject_IsInstance(o, T)` is `Env.instOf (Py_TYPE o) T`.
* Python dicts are insertion-ordered association lists with key-unique
  update semantics (`dictSet` updates in place, `dictDel` removes).
* Reference counting on the collector's acquisition/release paths is
  recorded as an explicit event list (`RefEvent`).
-/

namespace Override

/-- Generic Python values appearing as ufunc arguments / dict values. -/
inductive Val where
  /-- Python `None`. -/
  | none
  /-- The `numpy._NoValue` sentinel (`npy_static_pydata._NoValue`). -/
  | noValue
  | int (n : Int)
  | bool (b : Bool)
  | str (s : String)
  /-- An operand object, identified by its `oid`. -/
  | opVal (oid : Nat)
  /-- The ufunc object, identified by its id. -/
  | ufuncVal (u : Nat)
  /-- The normalized `out` tuple, as the list of operand ids it holds. -/
  | outTuple (oids : List Nat)
  /-- Any other opaque object. -/
  | obj (n : Nat)
deriving DecidableEq, Repr

/-- An operand: a Python object with an identity and a runtime type. -/
structure Operand where
  oid : Nat
  ty : Nat
deriving DecidableEq, Repr

/-- Outcome of the `__array_ufunc__` capability query on a runtime type
(`PyUFuncOverride_GetNonDefaultArrayUfunc`): absent / default (`NULL`),
explicitly disabled (`Py_None`), or a handler object. -/
inductive Capability where
  | noHandler
  | disabled
  | handler (hid : Nat)
deriving DecidableEq, Repr

/-- What a handler invocation does: raise, return `NotImplemented`, or
return a result value. -/
inductive HandlerResult where
  | err
  | notImplemented
  | value (v : Val)
deriving DecidableEq, Repr

/-- The external world: capability per runtime type, the subclass relation
(`instOf t T` = an instance of class `t` is an instance of class `T`), and
each handler's behaviour when invoked. -/
structure Env where
  cap : Nat → Capability
  instOf : Nat → Nat → Bool
  behavior : Nat → HandlerResult

/-- A collected candidate: one operand paired with its handler
(`with_override[i]` / `array_ufunc_methods[i]`). -/
structure Cand where
  op : Operand
  hid : Nat
deriving DecidableEq, Repr

/-! ### Python dict as an insertion-ordered association list -/

/-- Insertion-ordered string-keyed mapping (`PyDict`). -/
abbrev Dict := List (String × Val)

/-- `PyDict_SetItem`: update in place if the key exists, else append. -/
def dictSet (d : Dict) (k : String) (v : Val) : Dict :=
  match d with
  | [] => [(k, v)]
  | p :: rest => if p.1 = k then (k, v) :: rest else p :: dictSet rest k v

/-- `PyDict_GetItem`: value at a key, if present. -/
def dictGet (d : Dict) (k : String) : Option Val :=
  match d with
  | [] => Option.none
  | p :: rest => if p.1 = k then Option.some p.2 else dictGet rest k

/-- `PyDict_DelItem` (total: deleting an absent key is the identity, which
is how the source guards it with `PyDict_Contains`). -/
def dictDel (d : Dict) (k : String) : Dict :=
  match d with
  | [] => []
  | p :: rest => if p.1 = k then dictDel rest k else p :: dictDel rest k

/-- `PyDict_Contains`. -/
def dictHasKey (d : Dict) (k : String) : Bool :=
  d.any (fun p => p.1 = k)

/-! ### Parameter normalizer -/

/-- `initialize_normal_kwds`: insert each keyword name with its value
(keyword values sit at `args[len_args + i]`), then force `out` to the
normalized output tuple, or force it absent when no outputs were given. -/
def initialize_normal_kwds (out_args : Option (List Operand))
    (args : List Val) (lenArgs : Nat) (kwnames : Option (List String))
    (kwds : Dict) : Dict :=
  let d1 :=
    match kwnames with
    | Option.none => kwds
    | Option.some names =>
        names.enum.foldl
          (fun d p => dictSet d p.2 (args.getD (lenArgs + p.1) Val.none))
          kwds
  match out_args with
  | Option.some outs => dictSet d1 "out" (Val.outTuple (outs.map (fun o => o.oid)))
  | Option.none => dictDel d1 "out"

/-- `normalize_signature_keyword`: if key `"sig"` is present, set
`"signature"` to its value and delete `"sig"`. -/
def normalize_signature_keyword (kwds : Dict) : Dict :=
  match dictGet kwds "sig" with
  | Option.some v => dictDel (dictSet kwds "signature" v) "sig"
  | Option.none => kwds

/-- `copy_positional_args_to_kwargs`: map supplemental positional slots to
named parameters; a `NULL` keyword (reserved slot) is skipped, and slot 5
(`initial`, reduce only) is skipped when its value is the `_NoValue`
sentinel. -/
def copy_positional_args_to_kwargs (keywords : List (Option String))
    (args : List Val) (lenArgs : Nat) (kwds : Dict) : Dict :=
  (List.range lenArgs).foldl
    (fun d i =>
      match keywords.getD i Option.none with
      | Option.none => d
      | Option.some kw =>
          if i = 5 ∧ args.getD i Val.none = Val.noValue then d
          else dictSet d kw (args.getD i Val.none))
    kwds

/-- The `reduce` keyword schema (two reserved `NULL` slots). -/
def reduceKeywords : List (Option String) :=
  [Option.none, Option.some "axis", Option.some "dtype", Option.none,
   Option.some "keepdims", Option.some "initial", Option.some "where"]

/-- The `accumulate` keyword schema. -/
def accumulateKeywords : List (Option String) :=
  [Option.none, Option.some "axis", Option.some "dtype", Option.none]

/-- The `reduceat` keyword schema (three reserved `NULL` slots). -/
def reduceatKeywords : List (Option String) :=
  [Option.none, Option.none, Option.some "axis", Option.some "dtype", Option.none]

/-- The closed set of ufunc method names the dispatcher knows. -/
def knownMethod (m : String) : Bool :=
  m = "__call__" || m = "outer" || m = "reduce" || m = "accumulate" ||
  m = "reduceat" || m = "at"

/-- The whole normalization phase of `PyUFunc_CheckOverride` (lines
341-397): build `normal_kwds`, then apply the per-method rule.  `none`
models the "unknown ufunc method" `TypeError`. -/
def buildNormalKwds (method : String) (out_args : Option (List Operand))
    (args : List Val) (lenArgs : Nat) (kwnames : Option (List String)) :
    Option Dict :=
  let kwds0 := initialize_normal_kwds out_args args lenArgs kwnames []
  if method = "__call__" || method = "outer" then
    Option.some (normalize_signature_keyword kwds0)
  else if method = "reduce" then
    Option.some (copy_positional_args_to_kwargs reduceKeywords args lenArgs kwds0)
  else if method = "accumulate" then
    Option.some (copy_positional_args_to_kwargs accumulateKeywords args lenArgs kwds0)
  else if method = "reduceat" then
    Option.some (copy_positional_args_to_kwargs reduceatKeywords args lenArgs kwds0)
  else if method = "at" then
    Option.some kwds0
  else
    Option.none

/-! ### Candidate collector -/

/-- A reference-count event on the collector's paths: acquiring/releasing
an operand reference (`Py_INCREF(obj)` / `Py_DECREF(with_override[i])`) or
a handler reference (new reference returned by the capability query /
`Py_DECREF(methods[i])`). -/
inductive RefEvent where
  | acqOp (oid : Nat)
  | acqMeth (hid : Nat)
  | relOp (oid : Nat)
  | relMeth (hid : Nat)
deriving DecidableEq, Repr

/-- The collector's `fail:` label: release each collected entry's operand
and handler references, in index order. -/
def releaseAll (cands : List Cand) : List RefEvent :=
  (cands.map (fun c => [RefEvent.relOp c.op.oid, RefEvent.relMeth c.hid])).flatten

/-- The scan order of `get_array_ufunc_overrides`: inputs, then outputs,
then the optional where-mask. -/
def scannedArgs (in_args : List Operand) (out_args : Option (List Operand))
    (wheremask : Option Operand) : List Operand :=
  in_args ++ out_args.getD [] ++ wheremask.toList

/-- Body of the scan loop of `get_array_ufunc_overrides` (lines 64-115):
skip an operand whose runtime type already has a collected candidate;
otherwise query the capability and skip / abort / collect.  Returns the
offending runtime type on abort, and the reference events either way. -/
def collectAux (env : Env) (cands : List Cand) (evs : List RefEvent) :
    List Operand → (Except Nat (List Cand)) × List RefEvent
  | [] => (Except.ok cands, evs)
  | o :: rest =>
    if cands.any (fun c => c.op.ty = o.ty) then
      collectAux env cands evs rest
    else
      match env.cap o.ty with
      | Capability.noHandler => collectAux env cands evs rest
      | Capability.disabled => (Except.error o.ty, evs ++ releaseAll cands)
      | Capability.handler h =>
          collectAux env (cands ++ [⟨o, h⟩])
            (evs ++ [RefEvent.acqMeth h, RefEvent.acqOp o.oid]) rest

/-- `get_array_ufunc_overrides`. -/
def get_array_ufunc_overrides (env : Env) (in_args : List Operand)
    (out_args : Option (List Operand)) (wheremask : Option Operand) :
    (Except Nat (List Cand)) × List RefEvent :=
  collectAux env [] [] (scannedArgs in_args out_args wheremask)

/-! ### Resolution loop -/

/-- Is some remaining (non-`NULL`) candidate to the right a strict subtype
of runtime type `t`?  (Lines 421-430: `Py_TYPE(other) != Py_TYPE(obj) &&
PyObject_IsInstance(other, Py_TYPE(obj))`.) -/
def hasLaterSub (env : Env) (t : Nat) (rest : List (Option Cand)) : Bool :=
  rest.any (fun s =>
    match s with
    | Option.some c => (c.op.ty != t) && env.instOf c.op.ty t
    | Option.none => false)

/-- The selection scan (lines 414-440): the first remaining candidate with
no remaining strict subtype to its right, with its index. -/
def selectCand (env : Env) : List (Option Cand) → Option (Nat × Cand)
  | [] => Option.none
  | Option.none :: rest =>
      (selectCand env rest).map (fun p => (p.1 + 1, p.2))
  | Option.some c :: rest =>
      if hasLaterSub env c.op.ty rest then
        (selectCand env rest).map (fun p => (p.1 + 1, p.2))
      else
        Option.some (0, c)

/-- One handler invocation, as observed by the handler: the positional
tuple `(chosen operand, ufunc, method name, *in_args)` (lines 447-459,
491) and the keyword dict. -/
structure CallRecord where
  cand : Cand
  posArgs : List Val
  kwds : Dict
deriving DecidableEq, Repr

/-- Build the `override_args` call record for a chosen candidate. -/
def mkRecord (u : Nat) (m : String) (inputs : List Operand) (kwds : Dict)
    (c : Cand) : CallRecord :=
  { cand := c,
    posArgs := Val.opVal c.op.oid :: Val.ufuncVal u :: Val.str m ::
      inputs.map (fun o => Val.opVal o.oid),
    kwds := kwds }

/-- How the `while (1)` loop ends. -/
inductive LoopRes where
  /-- No acceptable override was found: every candidate declined. -/
  | unhandled
  /-- A handler returned a result other than `NotImplemented`. -/
  | success (v : Val)
  /-- A handler raised. -/
  | err
deriving DecidableEq, Repr

/-- Number of not-yet-consumed candidate slots. -/
def countRemaining (arr : List (Option Cand)) : Nat :=
  (arr.filterMap id).length

/-- The `while (1)` loop of `PyUFunc_CheckOverride` (lines 407-510),
returning the invocation trace and the loop result.  Each round selects by
`selectCand` over the current slots, clears the chosen slot, invokes, and
interprets the outcome.  The fuel argument only bounds the recursion: each
declining round consumes one slot, so fuel `≥ countRemaining` makes the
fuel case unreachable (and the fuel-0 fallback coincides with the
no-candidate exit). -/
def runLoop (env : Env) (u : Nat) (m : String) (inputs : List Operand)
    (kwds : Dict) : Nat → List (Option Cand) → List CallRecord × LoopRes
  | 0, _ => ([], LoopRes.unhandled)
  | fuel + 1, arr =>
    match selectCand env arr with
    | Option.none => ([], LoopRes.unhandled)
    | Option.some (i, c) =>
      match env.behavior c.hid with
      | HandlerResult.err => ([mkRecord u m inputs kwds c], LoopRes.err)
      | HandlerResult.value v => ([mkRecord u m inputs kwds c], LoopRes.success v)
      | HandlerResult.notImplemented =>
          let p := runLoop env u m inputs kwds fuel (arr.set i Option.none)
          (mkRecord u m inputs kwds c :: p.1, p.2)

/-- The observable outcome of `PyUFunc_CheckOverride`. -/
inductive Outcome where
  /-- Status 0 with `*result == NULL`: no override, caller proceeds. -/
  | noOverride
  /-- Status 0 with `*result` set: an override handled the call. -/
  | success (v : Val)
  /-- `TypeError`: operand of this runtime type has `__array_ufunc__ = None`. -/
  | operandUnsupported (t : Nat)
  /-- `TypeError`: unknown ufunc method name (the name is carried, as the
  message "unknown ufunc method" names it). -/
  | unknownMethod (m : String)
  /-- `TypeError` from `array_ufunc_errmsg_formatter(None, ufunc,
  method_name, *in_args, **normal_kwds)`: every candidate declined. -/
  | unhandled (u : Nat) (m : String) (inputs : List Operand) (kwds : Dict)
  /-- A handler raised; the error propagates unchanged. -/
  | handlerError
deriving DecidableEq, Repr

/-- Full observable result of one `PyUFunc_CheckOverride` call. -/
structure CheckResult where
  trace : List CallRecord
  outcome : Outcome
  events : List RefEvent
deriving DecidableEq, Repr

/-- `PyUFunc_CheckOverride` (lines 306-524): collect candidates, bail out
if none, normalize keyword arguments per method, then run the resolution
loop. -/
def PyUFunc_CheckOverride (env : Env) (ufuncId : Nat) (method : String)
    (in_args : List Operand) (out_args : Option (List Operand))
    (wheremask : Option Operand) (args : List Val) (lenArgs : Nat)
    (kwnames : Option (List String)) : CheckResult :=
  match get_array_ufunc_overrides env in_args out_args wheremask with
  | (Except.error t, evs) => ⟨[], Outcome.operandUnsupported t, evs⟩
  | (Except.ok cands, evs) =>
    if cands.isEmpty then ⟨[], Outcome.noOverride, evs⟩
    else
      match buildNormalKwds method out_args args lenArgs kwnames with
      | Option.none => ⟨[], Outcome.unknownMethod method, evs⟩
      | Option.some kwds =>
        match runLoop env ufuncId method in_args kwds cands.length
          (cands.map Option.some) with
        | (tr, LoopRes.unhandled) =>
            ⟨tr, Outcome.unhandled ufuncId method in_args kwds, evs⟩
        | (tr, LoopRes.success v) => ⟨tr, Outcome.success v, evs⟩
        | (tr, LoopRes.err) => ⟨tr, Outcome.handlerError, evs⟩

/-- `NPY_MAXARGS`: the fixed maximum total operand count. -/
def NPY_MAXARGS : Nat := 64

/-- Does every acquisition event have a matching release? -/
def evBalanced (evs : List RefEvent) : Prop :=
  ∀ n : Nat,
    evs.count (RefEvent.acqOp n) = evs.count (RefEvent.relOp n) ∧
    evs.count (RefEvent.acqMeth n) = evs.count (RefEvent.relMeth n)

/-! ### Concrete scenario environments -/

/-- Scenario world: type 1 is a strict subclass of type 0; both carry
declining handlers (ids 100 and 101). -/
def envSub : Env :=
  { cap := fun t =>
      if t = 0 then Capability.handler 100
      else if t = 1 then Capability.handler 101
      else Capability.noHandler,
    instOf := fun a b => a = 1 && b = 0,
    behavior := fun _ => HandlerResult.notImplemented }

/-- Base-type operand `A` (runtime type 0). -/
def opA : Operand := ⟨10, 0⟩

/-- Subtype operand `B` (runtime type 1, a strict subtype of 0). -/
def opB : Operand := ⟨11, 1⟩

/-- Scenario world: type 0 has `__array_ufunc__ = None` (disabled), type 1
has an accepting handler. -/
def envDis : Env :=
  { cap := fun t =>
      if t = 0 then Capability.disabled
      else if t = 1 then Capability.handler 101
      else Capability.noHandler,
    instOf := fun _ _ => false,
    behavior := fun _ => HandlerResult.value (Val.int 3) }

/-- Scenario world: unrelated types 0 and 1; handler 100 declines and
handler 101 returns `7`. -/
def envMix : Env :=
  { cap := fun t =>
      if t = 0 then Capability.handler 100
      else if t = 1 then Capability.handler 101
      else Capability.noHandler,
    instOf := fun _ _ => false,
    behavior := fun h =>
      if h = 101 then HandlerResult.value (Val.int 7)
      else HandlerResult.notImplemented }

/-! ## Dict lemmas -/

theorem dictGet_set_self (d : Dict) (k : String) (v : Val) :
    dictGet (dictSet d k v) k = Option.some v := by
  induction d with
  | nil => simp [dictSet, dictGet]
  | cons p rest ih =>
    by_cases h : p.1 = k
    · simp [dictSet, dictGet, h]
    · simpa [dictSet, dictGet, h] using ih

theorem dictGet_set_other (d : Dict) (k k' : String) (v : Val)
    (h : k' ≠ k) : dictGet (dictSet d k v) k' = dictGet d k' := by
  have hkk : ¬(k = k') := fun hh => h hh.symm
  induction d with
  | nil => simp [dictSet, dictGet, hkk]
  | cons p rest ih =>
    by_cases hp : p.1 = k
    · have hp' : ¬(p.1 = k') := by rw [hp]; exact hkk
      simp [dictSet, dictGet, hp, hkk, hp']
    · by_cases hp' : p.1 = k'
      · simp [dictSet, dictGet, hp, hp', h]
      · simpa [dictSet, dictGet, hp, hp'] using ih

theorem dictGet_del_self (d : Dict) (k : String) :
    dictGet (dictDel d k) k = Option.none := by
  induction d with
  | nil => simp [dictDel, dictGet]
  | cons p rest ih =>
    by_cases h : p.1 = k
    · simpa [dictDel, dictGet, h] using ih
    · simpa [dictDel, dictGet, h] using ih

theorem dictGet_del_other (d : Dict) (k k' : String) (h : k' ≠ k) :
    dictGet (dictDel d k) k' = dictGet d k' := by
  induction d with
  | nil => simp [dictDel, dictGet]
  | cons p rest ih =>
    by_cases hp : p.1 = k
    · have hkk : ¬(k = k') := fun hh => h hh.symm
      simpa [dictDel, dictGet, hp, hkk] using ih
    · by_cases hp' : p.1 = k'
      · simp [dictDel, dictGet, hp, hp', h]
      · simpa [dictDel, dictGet, hp, hp'] using ih

/-- Claim C7: normalizing a parameter mapping that contains key `"sig"`
and not key `"signature"` (under the Call / Outer variant rule,
`normalize_signature_keyword`) yields a mapping binding `"signature"` to
the same value, no longer containing `"sig"`, with every other entry
unchanged. -/
theorem C7_sig_rename (d : Dict) (v : Val)
    (hsig : dictGet d "sig" = Option.some v)
    (_hnosig : dictGet d "signature" = Option.none) :
    dictGet (normalize_signature_keyword d) "signature" = Option.some v ∧
    dictGet (normalize_signature_keyword d) "sig" = Option.none ∧
    ∀ k : String, k ≠ "sig" → k ≠ "signature" →
      dictGet (normalize_signature_keyword d) k = dictGet d k := by
  unfold normalize_signature_keyword
  rw [hsig]
  refine ⟨?_, ?_, ?_⟩
  · rw [dictGet_del_other _ _ _ (by decide), dictGet_set_self]
  · exact dictGet_del_self _ _
  · intro k hk hk'
    rw [dictGet_del_other _ _ _ hk, dictGet_set_other _ _ _ _ hk']

/-- Witness for C7 on a concrete mapping. -/
theorem C7_sig_rename_witness :
    (dictGet [("a", Val.int 1), ("sig", Val.str "dd")] "sig" =
        Option.some (Val.str "dd") ∧
      dictGet [("a", Val.int 1), ("sig", Val.str "dd")] "signature" =
        Option.none) ∧
    (dictGet (normalize_signature_keyword
        [("a", Val.int 1), ("sig", Val.str "dd")]) "signature" =
        Option.some (Val.str "dd") ∧
      dictGet (normalize_signature_keyword
        [("a", Val.int 1), ("sig", Val.str "dd")]) "sig" = Option.none ∧
      ∀ k : String, k ≠ "sig" → k ≠ "signature" →
        dictGet (normalize_signature_keyword
          [("a", Val.int 1), ("sig", Val.str "dd")]) k =
        dictGet [("a", Val.int 1), ("sig", Val.str "dd")] k) :=
  ⟨⟨by decide, by decide⟩,
    C7_sig_rename [("a", Val.int 1), ("sig", Val.str "dd")] (Val.str "dd")
      (by decide) (by decide)⟩

/-- Claim C6: for the Reduce variant with supplemental positional values
`(axis=0, dtype=None, out=None, keepdims=False, initial=_NoValue,
where=True)` and no output sequence, the normalized mapping binds `axis`,
`dtype`, `keepdims` and `where` to those values and contains neither
`initial` (sentinel-skipped) nor `out` (forced absent). -/
theorem C6_reduce_normalization :
    buildNormalKwds "reduce" Option.none
        [Val.obj 99, Val.int 0, Val.none, Val.none, Val.bool false,
          Val.noValue, Val.bool true] 7 Option.none =
      Option.some [("axis", Val.int 0), ("dtype", Val.none),
        ("keepdims", Val.bool false), ("where", Val.bool true)] ∧
    dictGet [("axis", Val.int 0), ("dtype", Val.none),
        ("keepdims", Val.bool false), ("where", Val.bool true)] "axis" =
      Option.some (Val.int 0) ∧
    dictGet [("axis", Val.int 0), ("dtype", Val.none),
        ("keepdims", Val.bool false), ("where", Val.bool true)] "dtype" =
      Option.some Val.none ∧
    dictGet [("axis", Val.int 0), ("dtype", Val.none),
        ("keepdims", Val.bool false), ("where", Val.bool true)] "keepdims" =
      Option.some (Val.bool false) ∧
    dictGet [("axis", Val.int 0), ("dtype", Val.none),
        ("keepdims", Val.bool false), ("where", Val.bool true)] "where" =
      Option.some (Val.bool true) ∧
    dictHasKey [("axis", Val.int 0), ("dtype", Val.none),
        ("keepdims", Val.bool false), ("where", Val.bool true)] "initial" =
      false ∧
    dictHasKey [("axis", Val.int 0), ("dtype", Val.none),
        ("keepdims", Val.bool false), ("where", Val.bool true)] "out" =
      false := by
  refine ⟨by decide, by decide, by decide, by decide, by decide,
    by decide, by decide⟩

/-! ## Selection-scan lemmas -/

theorem hasLaterSub_exists (env : Env) (t : Nat) (rest : List (Option Cand))
    (h : hasLaterSub env t rest = true) : ∃ c, Option.some c ∈ rest := by
  unfold hasLaterSub at h
  rw [List.any_eq_true] at h
  obtain ⟨s, hs, hp⟩ := h
  cases s with
  | none => simp at hp
  | some c => exact ⟨c, hs⟩

theorem selectCand_spec (env : Env) :
    ∀ (arr : List (Option Cand)) (i : Nat) (c : Cand),
      selectCand env arr = Option.some (i, c) →
        arr[i]? = Option.some (Option.some c) ∧
        hasLaterSub env c.op.ty (arr.drop (i + 1)) = false ∧
        ∀ k, k < i → ∀ c', arr[k]? = Option.some (Option.some c') →
          hasLaterSub env c'.op.ty (arr.drop (k + 1)) = true := by
  intro arr
  induction arr with
  | nil => intro i c h; simp [selectCand] at h
  | cons x rest ih =>
    intro i c h
    cases x with
    | none =>
      simp only [selectCand] at h
      cases hs : selectCand env rest with
      | none => rw [hs] at h; simp at h
      | some p =>
        obtain ⟨j, c₀⟩ := p
        rw [hs] at h
        simp only [Option.map_some'] at h
        obtain ⟨hi, hc⟩ := Prod.mk.injEq .. ▸ Option.some.injEq .. ▸ h
        obtain ⟨hget, hno, hlt⟩ := ih j c₀ hs
        subst hi; subst hc
        refine ⟨by simpa using hget, by simpa using hno, ?_⟩
        intro k hk c' hk'
        cases k with
        | zero => simp at hk'
        | succ k' =>
          simp only [List.getElem?_cons_succ] at hk'
          simpa using hlt k' (Nat.lt_of_succ_lt_succ hk) c' hk'
    | some c₁ =>
      simp only [selectCand] at h
      by_cases hl : hasLaterSub env c₁.op.ty rest
      · rw [if_pos hl] at h
        cases hs : selectCand env rest with
        | none => rw [hs] at h; simp at h
        | some p =>
          obtain ⟨j, c₀⟩ := p
          rw [hs] at h
          simp only [Option.map_some'] at h
          obtain ⟨hi, hc⟩ := Prod.mk.injEq .. ▸ Option.some.injEq .. ▸ h
          obtain ⟨hget, hno, hlt⟩ := ih j c₀ hs
          subst hi; subst hc
          refine ⟨by simpa using hget, by simpa using hno, ?_⟩
          intro k hk c' hk'
          cases k with
          | zero =>
            simp only [List.getElem?_cons_zero, Option.some.injEq] at hk'
            rw [← Option.some.injEq] at hk'
            simp only [Option.some.injEq] at hk'
            subst hk'
            simpa using hl
          | succ k' =>
            simp only [List.getElem?_cons_succ] at hk'
            simpa using hlt k' (Nat.lt_of_succ_lt_succ hk) c' hk'
      · rw [if_neg hl] at h
        obtain ⟨hi, hc⟩ := Prod.mk.injEq .. ▸ Option.some.injEq .. ▸ h
        subst hi; subst hc
        refine ⟨by simp, by simpa using hl, ?_⟩
        intro k hk
        exact absurd hk (Nat.not_lt_zero k)

theorem selectCand_eq_none (env : Env) :
    ∀ (arr : List (Option Cand)), selectCand env arr = Option.none →
      ∀ c : Cand, Option.some c ∈ arr → False := by
  intro arr
  induction arr with
  | nil => intro _ c hc; simp at hc
  | cons x rest ih =>
    intro h c hc
    cases x with
    | none =>
      simp only [selectCand] at h
      have hr : selectCand env rest = Option.none := by
        cases hs : selectCand env rest with
        | none => rfl
        | some p => rw [hs] at h; simp at h
      rcases List.mem_cons.mp hc with he | hm
      · exact Option.noConfusion he
      · exact ih hr c hm
    | some c₁ =>
      simp only [selectCand] at h
      by_cases hl : hasLaterSub env c₁.op.ty rest
      · rw [if_pos hl] at h
        have hr : selectCand env rest = Option.none := by
          cases hs : selectCand env rest with
          | none => rfl
          | some p => rw [hs] at h; simp at h
        obtain ⟨c', hc'⟩ := hasLaterSub_exists env _ rest hl
        exact ih hr c' hc'
      · rw [if_neg hl] at h
        exact Option.noConfusion h

theorem filterMap_set_perm (arr : List (Option Cand)) (i : Nat) (c : Cand)
    (h : arr[i]? = Option.some (Option.some c)) :
    List.Perm (arr.filterMap id) (c :: (arr.set i Option.none).filterMap id) := by
  induction arr generalizing i with
  | nil => simp at h
  | cons x rest ih =>
    cases i with
    | zero =>
      simp only [List.getElem?_cons_zero, Option.some.injEq] at h
      subst h
      simp [List.filterMap_cons]
    | succ n =>
      simp only [List.getElem?_cons_succ] at h
      have hrec := ih n h
      cases x with
      | none => simpa [List.filterMap_cons] using hrec
      | some d =>
        simp only [List.filterMap_cons, List.set_cons_succ, id]
        exact (hrec.cons d).trans (List.Perm.swap c d _)

theorem countRemaining_set (arr : List (Option Cand)) (i : Nat) (c : Cand)
    (h : arr[i]? = Option.some (Option.some c)) :
    countRemaining (arr.set i Option.none) + 1 = countRemaining arr := by
  have hp := (filterMap_set_perm arr i c h).length_eq
  simp only [countRemaining, List.length_cons] at hp ⊢
  omega

/-! ## Resolution-loop lemmas -/

theorem runLoop_shape (env : Env) (u : Nat) (m : String)
    (inputs : List Operand) (kwds : Dict) :
    ∀ (fuel : Nat) (arr : List (Option Cand)),
      (∀ v, (runLoop env u m inputs kwds fuel arr).2 = LoopRes.success v →
        ∃ pre last, (runLoop env u m inputs kwds fuel arr).1 = pre ++ [last] ∧
          env.behavior last.cand.hid = HandlerResult.value v ∧
          ∀ r ∈ pre, env.behavior r.cand.hid = HandlerResult.notImplemented) ∧
      ((runLoop env u m inputs kwds fuel arr).2 = LoopRes.err →
        ∃ pre last, (runLoop env u m inputs kwds fuel arr).1 = pre ++ [last] ∧
          env.behavior last.cand.hid = HandlerResult.err ∧
          ∀ r ∈ pre, env.behavior r.cand.hid = HandlerResult.notImplemented) := by
  intro fuel
  induction fuel with
  | zero =>
    intro arr
    constructor
    · intro v hv; simp [runLoop] at hv
    · intro hv; simp [runLoop] at hv
  | succ fuel ih =>
    intro arr
    cases hs : selectCand env arr with
    | none =>
      constructor
      · intro v hv; simp [runLoop, hs] at hv
      · intro hv; simp [runLoop, hs] at hv
    | some p =>
      obtain ⟨i, c⟩ := p
      cases hb : env.behavior c.hid with
      | err =>
        constructor
        · intro v hv; simp [runLoop, hs, hb] at hv
        · intro _
          refine ⟨[], mkRecord u m inputs kwds c, ?_, ?_, ?_⟩
          · simp [runLoop, hs, hb]
          · simpa [mkRecord] using hb
          · intro r hr; simp at hr
      | value v0 =>
        constructor
        · intro v hv
          have hvv : v0 = v := by
            simpa [runLoop, hs, hb] using hv
          refine ⟨[], mkRecord u m inputs kwds c, ?_, ?_, ?_⟩
          · simp [runLoop, hs, hb]
          · rw [← hvv]; simpa [mkRecord] using hb
          · intro r hr; simp at hr
        · intro hv; simp [runLoop, hs, hb] at hv
      | notImplemented =>
        have ihh := ih (arr.set i Option.none)
        constructor
        · intro v hv
          have hv' : (runLoop env u m inputs kwds fuel
              (arr.set i Option.none)).2 = LoopRes.success v := by
            simpa [runLoop, hs, hb] using hv
          obtain ⟨pre, last, h1, h2, h3⟩ := ihh.1 v hv'
          refine ⟨mkRecord u m inputs kwds c :: pre, last, ?_, h2, ?_⟩
          · simp [runLoop, hs, hb, h1]
          · intro r hr
            rcases List.mem_cons.mp hr with he | hm
            · subst he; simpa [mkRecord] using hb
            · exact h3 r hm
        · intro hv
          have hv' : (runLoop env u m inputs kwds fuel
              (arr.set i Option.none)).2 = LoopRes.err := by
            simpa [runLoop, hs, hb] using hv
          obtain ⟨pre, last, h1, h2, h3⟩ := ihh.2 hv'
          refine ⟨mkRecord u m inputs kwds c :: pre, last, ?_, h2, ?_⟩
          · simp [runLoop, hs, hb, h1]
          · intro r hr
            rcases List.mem_cons.mp hr with he | hm
            · subst he; simpa [mkRecord] using hb
            · exact h3 r hm

theorem runLoop_args (env : Env) (u : Nat) (m : String)
    (inputs : List Operand) (kwds : Dict) :
    ∀ (fuel : Nat) (arr : List (Option Cand)) (r : CallRecord),
      r ∈ (runLoop env u m inputs kwds fuel arr).1 →
        r.posArgs = Val.opVal r.cand.op.oid :: Val.ufuncVal u :: Val.str m ::
          inputs.map (fun o => Val.opVal o.oid) ∧
        r.kwds = kwds ∧ Option.some r.cand ∈ arr := by
  intro fuel
  induction fuel with
  | zero => intro arr r hr; simp [runLoop] at hr
  | succ fuel ih =>
    intro arr r hr
    cases hs : selectCand env arr with
    | none => simp [runLoop, hs] at hr
    | some p =>
      obtain ⟨i, c⟩ := p
      have hmem : Option.some c ∈ arr :=
        List.getElem?_mem (selectCand_spec env arr i c hs).1
      cases hb : env.behavior c.hid with
      | err =>
        have he : r = mkRecord u m inputs kwds c := by
          simpa [runLoop, hs, hb] using hr
        subst he
        exact ⟨rfl, rfl, by simpa [mkRecord] using hmem⟩
      | value v0 =>
        have he : r = mkRecord u m inputs kwds c := by
          simpa [runLoop, hs, hb] using hr
        subst he
        exact ⟨rfl, rfl, by simpa [mkRecord] using hmem⟩
      | notImplemented =>
        have hr' : r = mkRecord u m inputs kwds c ∨
            r ∈ (runLoop env u m inputs kwds fuel (arr.set i Option.none)).1 := by
          simpa [runLoop, hs, hb] using hr
        rcases hr' with he | hm
        · subst he
          exact ⟨rfl, rfl, by simpa [mkRecord] using hmem⟩
        · obtain ⟨h1, h2, h3⟩ := ih (arr.set i Option.none) r hm
          refine ⟨h1, h2, ?_⟩
          rcases List.mem_or_eq_of_mem_set h3 with hms | hme
          · exact hms
          · exact absurd hme (by simp)

theorem runLoop_all_decline (env : Env) (u : Nat) (m : String)
    (inputs : List Operand) (kwds : Dict) :
    ∀ (fuel : Nat) (arr : List (Option Cand)),
      countRemaining arr ≤ fuel →
      (∀ c : Cand, Option.some c ∈ arr →
        env.behavior c.hid = HandlerResult.notImplemented) →
      (runLoop env u m inputs kwds fuel arr).2 = LoopRes.unhandled ∧
      List.Perm (runLoop env u m inputs kwds fuel arr).1
        ((arr.filterMap id).map (mkRecord u m inputs kwds)) := by
  intro fuel
  induction fuel with
  | zero =>
    intro arr hf _
    have h0 : countRemaining arr = 0 := Nat.le_zero.mp hf
    have hnil : arr.filterMap id = [] :=
      List.eq_nil_of_length_eq_zero h0
    simp [runLoop, hnil]
  | succ fuel ih =>
    intro arr hf hdecl
    cases hs : selectCand env arr with
    | none =>
      have hnil : arr.filterMap id = [] := by
        rw [List.filterMap_eq_nil_iff]
        intro a ha
        cases a with
        | none => rfl
        | some c => exact absurd (selectCand_eq_none env arr hs c ha) (by simp)
      simp [runLoop, hs, hnil]
    | some p =>
      obtain ⟨i, c⟩ := p
      have hget := (selectCand_spec env arr i c hs).1
      have hmem : Option.some c ∈ arr := List.getElem?_mem hget
      have hb : env.behavior c.hid = HandlerResult.notImplemented :=
        hdecl c hmem
      have hcount : countRemaining (arr.set i Option.none) ≤ fuel := by
        have := countRemaining_set arr i c hget
        omega
      have hdecl' : ∀ c' : Cand, Option.some c' ∈ arr.set i Option.none →
          env.behavior c'.hid = HandlerResult.notImplemented := by
        intro c' hc'
        rcases List.mem_or_eq_of_mem_set hc' with hms | hme
        · exact hdecl c' hms
        · exact absurd hme (by simp)
      obtain ⟨ih1, ih2⟩ := ih (arr.set i Option.none) hcount hdecl'
      constructor
      · simpa [runLoop, hs, hb] using ih1
      · have hperm := (filterMap_set_perm arr i c hget).map
          (mkRecord u m inputs kwds)
        have : (runLoop env u m inputs kwds (fuel + 1) arr).1 =
            mkRecord u m inputs kwds c ::
              (runLoop env u m inputs kwds fuel (arr.set i Option.none)).1 := by
          simp [runLoop, hs, hb]
        rw [this]
        exact ((ih2.cons (mkRecord u m inputs kwds c)).trans hperm.symm).symm.symm

/-! ## Candidate-collector lemmas -/

theorem collectAux_ok (env : Env) :
    ∀ (rest : List Operand) (cands : List Cand) (evs evs' : List RefEvent)
      (seen : List Operand) (final : List Cand),
      collectAux env cands evs rest = (Except.ok final, evs') →
      (∀ c ∈ cands, env.cap c.op.ty = Capability.handler c.hid) →
      List.Pairwise (fun a b : Cand => a.op.ty ≠ b.op.ty) cands →
      (∀ c ∈ cands,
        seen.find? (fun o => decide (o.ty = c.op.ty)) = Option.some c.op) →
      (∀ p ∈ seen, (∃ h, env.cap p.ty = Capability.handler h) →
        ∃ c ∈ cands, c.op.ty = p.ty) →
      (∀ c ∈ final, env.cap c.op.ty = Capability.handler c.hid) ∧
      List.Pairwise (fun a b : Cand => a.op.ty ≠ b.op.ty) final ∧
      (∀ c ∈ final,
        (seen ++ rest).find? (fun o => decide (o.ty = c.op.ty)) =
          Option.some c.op) ∧
      (∀ p ∈ seen ++ rest, (∃ h, env.cap p.ty = Capability.handler h) →
        ∃ c ∈ final, c.op.ty = p.ty) := by
  intro rest
  induction rest with
  | nil =>
    intro cands evs evs' seen final hcol h1 h2 h3 h4
    have hfin : cands = final := by
      simpa [collectAux] using congrArg (fun q => q.1) hcol
    subst hfin
    rw [List.append_nil]
    exact ⟨h1, h2, h3, h4⟩
  | cons o rest ih =>
    intro cands evs evs' seen final hcol h1 h2 h3 h4
    rw [List.append_cons]
    by_cases hskip : (cands.any (fun c => decide (c.op.ty = o.ty))) = true
    · rw [collectAux, if_pos hskip] at hcol
      refine ih cands evs evs' (seen ++ [o]) final hcol h1 h2 ?_ ?_
      · intro c hc
        rw [List.find?_append, h3 c hc, Option.or]
      · intro p hp hcap
        rcases List.mem_append.mp hp with hm | hm
        · exact h4 p hm hcap
        · have hpo : p = o := by simpa using hm
          subst hpo
          obtain ⟨c, hc, hty⟩ := List.any_eq_true.mp hskip
          exact ⟨c, hc, of_decide_eq_true hty⟩
    · rw [collectAux, if_neg hskip] at hcol
      have hnone : ∀ c ∈ cands, ¬(c.op.ty = o.ty) := by
        intro c hc hco
        exact hskip (List.any_eq_true.mpr ⟨c, hc, decide_eq_true hco⟩)
      cases hcap : env.cap o.ty with
      | noHandler =>
        rw [hcap] at hcol
        refine ih cands evs evs' (seen ++ [o]) final hcol h1 h2 ?_ ?_
        · intro c hc
          rw [List.find?_append, h3 c hc, Option.or]
        · intro p hp hcp
          rcases List.mem_append.mp hp with hm | hm
          · exact h4 p hm hcp
          · have hpo : p = o := by simpa using hm
            subst hpo
            obtain ⟨h', hh'⟩ := hcp
            rw [hcap] at hh'
            exact absurd hh' (by simp)
      | disabled =>
        rw [hcap] at hcol
        exact absurd (congrArg (fun q => q.1) hcol) (by simp)
      | handler h =>
        rw [hcap] at hcol
        have hseen : ∀ p ∈ seen, ¬(p.ty = o.ty) := by
          intro p hp hpo
          obtain ⟨c, hc, hcty⟩ := h4 p hp ⟨h, by rw [hpo, hcap]⟩
          exact hnone c hc (by rw [hcty, hpo])
        refine ih (cands ++ [⟨o, h⟩]) _ evs' (seen ++ [o]) final hcol ?_ ?_ ?_ ?_
        · intro c hc
          rcases List.mem_append.mp hc with hm | hm
          · exact h1 c hm
          · have : c = ⟨o, h⟩ := by simpa using hm
            subst this
            exact hcap
        · rw [List.pairwise_append]
          refine ⟨h2, by simp, ?_⟩
          intro a ha b hb
          have : b = ⟨o, h⟩ := by simpa using hb
          subst this
          exact hnone a ha
        · intro c hc
          rcases List.mem_append.mp hc with hm | hm
          · rw [List.find?_append, h3 c hm, Option.or]
          · have : c = ⟨o, h⟩ := by simpa using hm
            subst this
            rw [List.find?_append]
            have hn : seen.find? (fun x => decide (x.ty = Operand.ty o)) =
                Option.none := by
              rw [List.find?_eq_none]
              intro x hx
              simpa using hseen x hx
            rw [hn]
            simp [List.find?]
        · intro p hp hcp
          rcases List.mem_append.mp hp with hm | hm
          · obtain ⟨c, hc, hcty⟩ := h4 p hm hcp
            exact ⟨c, List.mem_append.mpr (Or.inl hc), hcty⟩
          · have hpo : p = o := by simpa using hm
            subst hpo
            exact ⟨⟨p, h⟩, List.mem_append.mpr (Or.inr (by simp)), rfl⟩

theorem releaseAll_cons (c : Cand) (rest : List Cand) :
    releaseAll (c :: rest) =
      RefEvent.relOp c.op.oid :: RefEvent.relMeth c.hid :: releaseAll rest := by
  simp [releaseAll]

theorem releaseAll_count_relOp (cands : List Cand) (n : Nat) :
    (releaseAll cands).count (RefEvent.relOp n) =
      (cands.map (fun c => c.op.oid)).count n := by
  induction cands with
  | nil => simp [releaseAll]
  | cons c rest ih =>
    rw [releaseAll_cons]
    simp [List.count_cons, ih]

theorem releaseAll_count_relMeth (cands : List Cand) (n : Nat) :
    (releaseAll cands).count (RefEvent.relMeth n) =
      (cands.map (fun c => c.hid)).count n := by
  induction cands with
  | nil => simp [releaseAll]
  | cons c rest ih =>
    rw [releaseAll_cons]
    simp [List.count_cons, ih]

theorem releaseAll_count_acqOp (cands : List Cand) (n : Nat) :
    (releaseAll cands).count (RefEvent.acqOp n) = 0 := by
  induction cands with
  | nil => simp [releaseAll]
  | cons c rest ih =>
    rw [releaseAll_cons]
    simp [List.count_cons, ih]

theorem releaseAll_count_acqMeth (cands : List Cand) (n : Nat) :
    (releaseAll cands).count (RefEvent.acqMeth n) = 0 := by
  induction cands with
  | nil => simp [releaseAll]
  | cons c rest ih =>
    rw [releaseAll_cons]
    simp [List.count_cons, ih]

theorem collectAux_error (env : Env) :
    ∀ (rest : List Operand) (cands : List Cand) (evs : List RefEvent)
      (o : Operand),
      (∀ c ∈ cands, env.cap c.op.ty = Capability.handler c.hid) →
      (∀ n, evs.count (RefEvent.acqOp n) =
        (cands.map (fun c => c.op.oid)).count n) →
      (∀ n, evs.count (RefEvent.acqMeth n) =
        (cands.map (fun c => c.hid)).count n) →
      (∀ n, evs.count (RefEvent.relOp n) = 0) →
      (∀ n, evs.count (RefEvent.relMeth n) = 0) →
      rest.find? (fun x => decide (env.cap x.ty = Capability.disabled)) =
        Option.some o →
      (collectAux env cands evs rest).1 = Except.error o.ty ∧
      evBalanced (collectAux env cands evs rest).2 := by
  intro rest
  induction rest with
  | nil => intro cands evs o _ _ _ _ _ hfind; simp at hfind
  | cons x rest ih =>
    intro cands evs o h1 hao ham hro hrm hfind
    by_cases hx : env.cap x.ty = Capability.disabled
    · have ho : o = x := by
        simp only [List.find?_cons, decide_eq_true hx] at hfind
        exact (Option.some.inj hfind).symm
      subst ho
      have hskip : (cands.any (fun c => decide (c.op.ty = o.ty))) ≠ true := by
        intro hs
        obtain ⟨c, hc, hty⟩ := List.any_eq_true.mp hs
        have h' := h1 c hc
        rw [of_decide_eq_true hty] at h'
        exact Capability.noConfusion (h'.symm.trans hx)
      rw [collectAux, if_neg hskip, hx]
      refine ⟨rfl, ?_⟩
      intro n
      constructor
      · rw [List.count_append, List.count_append,
          releaseAll_count_acqOp, releaseAll_count_relOp, hao n, hro n]
        omega
      · rw [List.count_append, List.count_append,
          releaseAll_count_acqMeth, releaseAll_count_relMeth, ham n, hrm n]
        omega
    · simp only [List.find?_cons, decide_eq_false hx] at hfind
      by_cases hskip : (cands.any (fun c => decide (c.op.ty = x.ty))) = true
      · rw [collectAux, if_pos hskip]
        exact ih cands evs o h1 hao ham hro hrm hfind
      · rw [collectAux, if_neg hskip]
        cases hcap : env.cap x.ty with
        | noHandler => exact ih cands evs o h1 hao ham hro hrm hfind
        | disabled => exact absurd hcap hx
        | handler h =>
          refine ih (cands ++ [⟨x, h⟩]) _ o ?_ ?_ ?_ ?_ ?_ hfind
          · intro c hc
            rcases List.mem_append.mp hc with hm | hm
            · exact h1 c hm
            · have : c = ⟨x, h⟩ := by simpa using hm
              subst this
              exact hcap
          · intro n
            simp [List.count_append, List.count_cons, hao n]
          · intro n
            simp [List.count_append, List.count_cons, ham n]
          · intro n
            simp [List.count_append, List.count_cons, hro n]
          · intro n
            simp [List.count_append, List.count_cons, hrm n]

theorem buildNormalKwds_unknown (m : String) (out_args : Option (List Operand))
    (args : List Val) (lenArgs : Nat) (kwnames : Option (List String))
    (hm : knownMethod m = false) :
    buildNormalKwds m out_args args lenArgs kwnames = Option.none := by
  unfold knownMethod at hm
  simp only [Bool.or_eq_false_iff] at hm
  obtain ⟨⟨⟨⟨⟨h1, h2⟩, h3⟩, h4⟩, h5⟩, h6⟩ := hm
  simp [buildNormalKwds, h1, h2, of_decide_eq_false h3,
    of_decide_eq_false h4, of_decide_eq_false h5, of_decide_eq_false h6]

theorem checkOverride_error_eq (env : Env) (u : Nat) (m : String)
    (in_args : List Operand) (out_args : Option (List Operand))
    (wheremask : Option Operand) (args : List Val) (lenArgs : Nat)
    (kwnames : Option (List String)) (t : Nat) (evs : List RefEvent)
    (hg : get_array_ufunc_overrides env in_args out_args wheremask =
      (Except.error t, evs)) :
    PyUFunc_CheckOverride env u m in_args out_args wheremask args lenArgs
      kwnames = ⟨[], Outcome.operandUnsupported t, evs⟩ := by
  unfold PyUFunc_CheckOverride
  rw [hg]

theorem checkOverride_ok_eq (env : Env) (u : Nat) (m : String)
    (in_args : List Operand) (out_args : Option (List Operand))
    (wheremask : Option Operand) (args : List Val) (lenArgs : Nat)
    (kwnames : Option (List String)) (cands : List Cand)
    (evs : List RefEvent)
    (hg : get_array_ufunc_overrides env in_args out_args wheremask =
      (Except.ok cands, evs)) :
    PyUFunc_CheckOverride env u m in_args out_args wheremask args lenArgs
        kwnames =
      (if cands.isEmpty then (⟨[], Outcome.noOverride, evs⟩ : CheckResult)
       else
         match buildNormalKwds m out_args args lenArgs kwnames with
         | Option.none => ⟨[], Outcome.unknownMethod m, evs⟩
         | Option.some kwds =>
           match runLoop env u m in_args kwds cands.length
             (cands.map Option.some) with
           | (tr, LoopRes.unhandled) =>
               ⟨tr, Outcome.unhandled u m in_args kwds, evs⟩
           | (tr, LoopRes.success v) => ⟨tr, Outcome.success v, evs⟩
           | (tr, LoopRes.err) => ⟨tr, Outcome.handlerError, evs⟩) := by
  unfold PyUFunc_CheckOverride
  rw [hg]

/-! ## Claim theorems -/

/-- Claim C8: the candidate list is deduplicated by exact runtime type:
candidates have pairwise distinct types, each candidate is the first
scanned operand of its runtime type, and the candidate count never
exceeds the number of distinct runtime types among the scanned operands
nor (when the scan fits the fixed operand bound, as the caller
guarantees) `NPY_MAXARGS`. -/
theorem C8_collector_dedup (env : Env) (in_args : List Operand)
    (out_args : Option (List Operand)) (wheremask : Option Operand)
    (cands : List Cand) (evs : List RefEvent)
    (h : get_array_ufunc_overrides env in_args out_args wheremask =
      (Except.ok cands, evs)) :
    List.Pairwise (fun a b : Cand => a.op.ty ≠ b.op.ty) cands ∧
    (∀ c ∈ cands,
      (scannedArgs in_args out_args wheremask).find?
        (fun o => decide (o.ty = c.op.ty)) = Option.some c.op) ∧
    cands.length ≤
      ((scannedArgs in_args out_args wheremask).map
        (fun o => o.ty)).dedup.length ∧
    ((scannedArgs in_args out_args wheremask).length ≤ NPY_MAXARGS →
      cands.length ≤ NPY_MAXARGS) := by
  unfold get_array_ufunc_overrides at h
  obtain ⟨i1, i2, i3, i4⟩ :=
    collectAux_ok env (scannedArgs in_args out_args wheremask) [] [] evs []
      cands h (by simp) (by simp) (by simp) (by simp)
  simp only [List.nil_append] at i3 i4
  have htys : (cands.map (fun c => c.op.ty)).Nodup := by
    show List.Pairwise _ _
    exact List.pairwise_map.mpr i2
  have hlen : cands.length ≤
      ((scannedArgs in_args out_args wheremask).map
        (fun o => o.ty)).dedup.length := by
    have hsubset : (cands.map (fun c => c.op.ty)).toFinset ⊆
        ((scannedArgs in_args out_args wheremask).map
          (fun o => o.ty)).toFinset := by
      intro t ht
      rw [List.mem_toFinset] at ht ⊢
      obtain ⟨c, hc, hct⟩ := List.mem_map.mp ht
      have hmem : c.op ∈ scannedArgs in_args out_args wheremask :=
        List.mem_of_find?_eq_some (i3 c hc)
      exact hct ▸ List.mem_map_of_mem (fun o => o.ty) hmem
    calc cands.length
        = (cands.map (fun c => c.op.ty)).length := (List.length_map ..).symm
      _ = (cands.map (fun c => c.op.ty)).toFinset.card :=
          (List.toFinset_card_of_nodup htys).symm
      _ ≤ ((scannedArgs in_args out_args wheremask).map
            (fun o => o.ty)).toFinset.card := Finset.card_le_card hsubset
      _ = ((scannedArgs in_args out_args wheremask).map
            (fun o => o.ty)).dedup.length := List.card_toFinset _
  refine ⟨i2, i3, hlen, ?_⟩
  intro hbound
  calc cands.length
      ≤ ((scannedArgs in_args out_args wheremask).map
          (fun o => o.ty)).dedup.length := hlen
    _ ≤ ((scannedArgs in_args out_args wheremask).map
          (fun o => o.ty)).length := (List.dedup_sublist _).length_le
    _ = (scannedArgs in_args out_args wheremask).length := List.length_map ..
    _ ≤ NPY_MAXARGS := hbound

/-- Witness for C8 on a concrete scan containing a duplicated runtime
type. -/
theorem C8_collector_dedup_witness :
    get_array_ufunc_overrides envSub [opA, opB, ⟨12, 0⟩] Option.none
        Option.none =
      (Except.ok [⟨opA, 100⟩, ⟨opB, 101⟩],
        [RefEvent.acqMeth 100, RefEvent.acqOp 10,
          RefEvent.acqMeth 101, RefEvent.acqOp 11]) ∧
    (List.Pairwise (fun a b : Cand => a.op.ty ≠ b.op.ty)
        [⟨opA, 100⟩, ⟨opB, 101⟩] ∧
      (∀ c ∈ [(⟨opA, 100⟩ : Cand), ⟨opB, 101⟩],
        (scannedArgs [opA, opB, ⟨12, 0⟩] Option.none Option.none).find?
          (fun o => decide (o.ty = c.op.ty)) = Option.some c.op) ∧
      ([(⟨opA, 100⟩ : Cand), ⟨opB, 101⟩]).length ≤
        ((scannedArgs [opA, opB, ⟨12, 0⟩] Option.none Option.none).map
          (fun o => o.ty)).dedup.length ∧
      ((scannedArgs [opA, opB, ⟨12, 0⟩] Option.none Option.none).length ≤
          NPY_MAXARGS →
        ([(⟨opA, 100⟩ : Cand), ⟨opB, 101⟩]).length ≤ NPY_MAXARGS)) :=
  ⟨by rfl,
    C8_collector_dedup envSub [opA, opB, ⟨12, 0⟩] Option.none Option.none
      [⟨opA, 100⟩, ⟨opB, 101⟩]
      [RefEvent.acqMeth 100, RefEvent.acqOp 10, RefEvent.acqMeth 101,
        RefEvent.acqOp 11] (by rfl)⟩

/-- Claim C2: if any scanned operand's capability query returns the
disabled marker, resolution fails with the `TypeError` naming the
offending operand's runtime type, no handler is ever invoked, and every
operand/handler reference the collector acquired is released. -/
theorem C2_disabled_aborts (env : Env) (u : Nat) (m : String)
    (in_args : List Operand) (out_args : Option (List Operand))
    (wheremask : Option Operand) (args : List Val) (lenArgs : Nat)
    (kwnames : Option (List String)) (o : Operand)
    (h : (scannedArgs in_args out_args wheremask).find?
        (fun x => decide (env.cap x.ty = Capability.disabled)) =
      Option.some o) :
    (PyUFunc_CheckOverride env u m in_args out_args wheremask args lenArgs
        kwnames).outcome = Outcome.operandUnsupported o.ty ∧
    (PyUFunc_CheckOverride env u m in_args out_args wheremask args lenArgs
        kwnames).trace = [] ∧
    env.cap o.ty = Capability.disabled ∧
    evBalanced (PyUFunc_CheckOverride env u m in_args out_args wheremask
        args lenArgs kwnames).events := by
  obtain ⟨h1, h2⟩ :=
    collectAux_error env (scannedArgs in_args out_args wheremask) [] [] o
      (by simp) (by simp) (by simp) (by simp) (by simp) h
  have hcap : env.cap o.ty = Capability.disabled := by
    simpa using List.find?_some h
  cases hg : get_array_ufunc_overrides env in_args out_args wheremask with
  | mk r e =>
    have hg' : collectAux env [] []
        (scannedArgs in_args out_args wheremask) = (r, e) := hg
    rw [hg'] at h1 h2
    simp only at h1 h2
    subst h1
    unfold PyUFunc_CheckOverride
    rw [hg]
    exact ⟨rfl, rfl, hcap, h2⟩

/-- Witness for C2: type-0 operand is disabled, a later type-1 operand
would have accepted. -/
theorem C2_disabled_aborts_witness :
    (scannedArgs [opB, opA] Option.none Option.none).find?
        (fun x => decide (envDis.cap x.ty = Capability.disabled)) =
      Option.some opA ∧
    ((PyUFunc_CheckOverride envDis 7 "__call__" [opB, opA] Option.none
        Option.none [] 0 Option.none).outcome =
      Outcome.operandUnsupported opA.ty ∧
    (PyUFunc_CheckOverride envDis 7 "__call__" [opB, opA] Option.none
        Option.none [] 0 Option.none).trace = [] ∧
    envDis.cap opA.ty = Capability.disabled ∧
    evBalanced (PyUFunc_CheckOverride envDis 7 "__call__" [opB, opA]
        Option.none Option.none [] 0 Option.none).events) :=
  ⟨by decide,
    C2_disabled_aborts envDis 7 "__call__" [opB, opA] Option.none
      Option.none [] 0 Option.none opA (by decide)⟩

/-- Claim C10: when the collector finds zero candidates, the call
succeeds with a null result (no override), raising nothing and invoking
no handler. -/
theorem C10_no_override_bailout (env : Env) (u : Nat) (m : String)
    (in_args : List Operand) (out_args : Option (List Operand))
    (wheremask : Option Operand) (args : List Val) (lenArgs : Nat)
    (kwnames : Option (List String)) (evs : List RefEvent)
    (hc : get_array_ufunc_overrides env in_args out_args wheremask =
      (Except.ok [], evs)) :
    PyUFunc_CheckOverride env u m in_args out_args wheremask args lenArgs
      kwnames = ⟨[], Outcome.noOverride, evs⟩ := by
  unfold PyUFunc_CheckOverride
  rw [hc]
  rfl

/-- Witness for C10: no scanned operand supplies a handler, so the call
reports "no override" even though the method name is not a known one. -/
theorem C10_no_override_bailout_witness :
    get_array_ufunc_overrides envSub [⟨5, 9⟩] Option.none Option.none =
      (Except.ok [], []) ∧
    PyUFunc_CheckOverride envSub 7 "at" [⟨5, 9⟩] Option.none Option.none
      [] 0 Option.none = ⟨[], Outcome.noOverride, []⟩ :=
  ⟨by rfl,
    C10_no_override_bailout envSub 7 "at" [⟨5, 9⟩] Option.none Option.none
      [] 0 Option.none [] (by rfl)⟩

/-- Counterexample to claim C9 as stated: with an unknown method name but
zero collected candidates, `PyUFunc_CheckOverride` does not fail — it
returns success with the no-override result, because the zero-candidate
bail-out (line 332) runs before the method-name dispatch (line 389). -/
theorem C9_unknown_method_cex :
    knownMethod "frobnicate" = false ∧
    PyUFunc_CheckOverride envSub 7 "frobnicate" [⟨5, 9⟩] Option.none
        Option.none [] 0 Option.none =
      ⟨[], Outcome.noOverride, []⟩ ∧
    ∀ s : String, (PyUFunc_CheckOverride envSub 7 "frobnicate" [⟨5, 9⟩]
        Option.none Option.none [] 0 Option.none).outcome ≠
      Outcome.unknownMethod s := by
  refine ⟨by decide, by decide, ?_⟩
  intro s h
  rw [show (PyUFunc_CheckOverride envSub 7 "frobnicate" [⟨5, 9⟩]
      Option.none Option.none [] 0 Option.none).outcome =
      Outcome.noOverride from by decide] at h
  exact Outcome.noConfusion h

/-- Claim C9 (amended): provided at least one candidate was collected, an
unknown invocation variant name makes the resolution call fail with the
caller-misuse `TypeError`, after candidate collection and before any
handler is invoked. -/
theorem C9_unknown_method_amended (env : Env) (u : Nat) (m : String)
    (in_args : List Operand) (out_args : Option (List Operand))
    (wheremask : Option Operand) (args : List Val) (lenArgs : Nat)
    (kwnames : Option (List String)) (cands : List Cand)
    (evs : List RefEvent)
    (hc : get_array_ufunc_overrides env in_args out_args wheremask =
      (Except.ok cands, evs))
    (hne : cands ≠ [])
    (hm : knownMethod m = false) :
    PyUFunc_CheckOverride env u m in_args out_args wheremask args lenArgs
      kwnames = ⟨[], Outcome.unknownMethod m, evs⟩ := by
  unfold PyUFunc_CheckOverride
  rw [hc]
  have hie : cands.isEmpty = false := by simp [List.isEmpty_iff, hne]
  rw [buildNormalKwds_unknown m out_args args lenArgs kwnames hm]
  simp [hie]

/-- Witness for the amended C9. -/
theorem C9_unknown_method_amended_witness :
    (get_array_ufunc_overrides envSub [opA] Option.none Option.none =
        (Except.ok [⟨opA, 100⟩], [RefEvent.acqMeth 100, RefEvent.acqOp 10]) ∧
      ([(⟨opA, 100⟩ : Cand)] ≠ []) ∧ knownMethod "frobnicate" = false) ∧
    PyUFunc_CheckOverride envSub 7 "frobnicate" [opA] Option.none
        Option.none [] 0 Option.none =
      ⟨[], Outcome.unknownMethod "frobnicate",
        [RefEvent.acqMeth 100, RefEvent.acqOp 10]⟩ :=
  ⟨⟨by rfl, by decide, by decide⟩,
    C9_unknown_method_amended envSub 7 "frobnicate" [opA] Option.none
      Option.none [] 0 Option.none [⟨opA, 100⟩]
      [RefEvent.acqMeth 100, RefEvent.acqOp 10] (by rfl) (by decide)
      (by decide)⟩

/-- Claim C1: in every round, the selected candidate is the first
(left-to-right) remaining candidate with no remaining candidate at a
later position whose runtime type is a strict subtype of its own (every
earlier remaining candidate has such a disqualifier); in the scenario of
base-type operand A at position 0 and subtype operand B at position 1,
B's handler (id 101) is invoked before A's (id 100). -/
theorem C1_selection_priority :
    (∀ (env : Env) (arr : List (Option Cand)) (i : Nat) (c : Cand),
      selectCand env arr = Option.some (i, c) →
        arr[i]? = Option.some (Option.some c) ∧
        hasLaterSub env c.op.ty (arr.drop (i + 1)) = false ∧
        ∀ k, k < i → ∀ c', arr[k]? = Option.some (Option.some c') →
          hasLaterSub env c'.op.ty (arr.drop (k + 1)) = true) ∧
    (PyUFunc_CheckOverride envSub 7 "__call__" [opA, opB] Option.none
        Option.none [] 0 Option.none).trace.map (fun r => r.cand.hid) =
      [101, 100] :=
  ⟨selectCand_spec, by decide⟩

/-- Witness for C1's selection characterization at a concrete round:
A (base type) at position 0 is disqualified by B (subtype) at position 1,
so B is selected. -/
theorem C1_selection_priority_witness :
    selectCand envSub [Option.some ⟨opA, 100⟩, Option.some ⟨opB, 101⟩] =
      Option.some (1, (⟨opB, 101⟩ : Cand)) ∧
    ([Option.some (⟨opA, 100⟩ : Cand), Option.some ⟨opB, 101⟩][1]? =
        Option.some (Option.some (⟨opB, 101⟩ : Cand)) ∧
      hasLaterSub envSub (⟨opB, 101⟩ : Cand).op.ty
        ([Option.some (⟨opA, 100⟩ : Cand),
          Option.some ⟨opB, 101⟩].drop 2) = false ∧
      ∀ k, k < 1 → ∀ c' : Cand,
        [Option.some (⟨opA, 100⟩ : Cand), Option.some ⟨opB, 101⟩][k]? =
          Option.some (Option.some c') →
        hasLaterSub envSub c'.op.ty
          ([Option.some (⟨opA, 100⟩ : Cand),
            Option.some ⟨opB, 101⟩].drop (k + 1)) = true) :=
  ⟨by decide,
    C1_selection_priority.1 envSub
      [Option.some ⟨opA, 100⟩, Option.some ⟨opB, 101⟩] 1 ⟨opB, 101⟩
      (by decide)⟩

/-- Claim C4: if a selected handler returns a non-marker value, that
value is the final result and no other candidate is invoked afterwards;
if a handler raises, the error propagates immediately and no further
candidate is invoked. -/
theorem C4_short_circuit (env : Env) (u : Nat) (m : String)
    (in_args : List Operand) (out_args : Option (List Operand))
    (wheremask : Option Operand) (args : List Val) (lenArgs : Nat)
    (kwnames : Option (List String)) :
    (∀ v, (PyUFunc_CheckOverride env u m in_args out_args wheremask args
        lenArgs kwnames).outcome = Outcome.success v →
      ∃ pre last, (PyUFunc_CheckOverride env u m in_args out_args
          wheremask args lenArgs kwnames).trace = pre ++ [last] ∧
        env.behavior last.cand.hid = HandlerResult.value v ∧
        ∀ r ∈ pre, env.behavior r.cand.hid = HandlerResult.notImplemented) ∧
    ((PyUFunc_CheckOverride env u m in_args out_args wheremask args
        lenArgs kwnames).outcome = Outcome.handlerError →
      ∃ pre last, (PyUFunc_CheckOverride env u m in_args out_args
          wheremask args lenArgs kwnames).trace = pre ++ [last] ∧
        env.behavior last.cand.hid = HandlerResult.err ∧
        ∀ r ∈ pre, env.behavior r.cand.hid = HandlerResult.notImplemented) := by
  cases hg : get_array_ufunc_overrides env in_args out_args wheremask with
  | mk res e =>
  cases res with
  | error t =>
    rw [checkOverride_error_eq env u m in_args out_args wheremask args
      lenArgs kwnames t e hg]
    exact ⟨fun v hv => by simp at hv, fun hv => by simp at hv⟩
  | ok cands =>
    rw [checkOverride_ok_eq env u m in_args out_args wheremask args
      lenArgs kwnames cands e hg]
    by_cases he : cands.isEmpty = true
    · rw [if_pos he]
      exact ⟨fun v hv => by simp at hv, fun hv => by simp at hv⟩
    · rw [if_neg he]
      split
      · exact ⟨fun v hv => by simp at hv, fun hv => by simp at hv⟩
      · rename_i kwds hk
        split
        · exact ⟨fun v hv => by simp at hv, fun hv => by simp at hv⟩
        · rename_i tr v0 hr
          constructor
          · intro v hv
            have hvv : v0 = v := by simpa using hv
            subst hvv
            obtain ⟨pre, last, e1, e2, e3⟩ :=
              (runLoop_shape env u m in_args kwds cands.length
                (cands.map Option.some)).1 v0 (by rw [hr])
            rw [hr] at e1
            exact ⟨pre, last, e1, e2, e3⟩
          · intro hv; simp at hv
        · rename_i tr hr
          constructor
          · intro v hv; simp at hv
          · intro _
            obtain ⟨pre, last, e1, e2, e3⟩ :=
              (runLoop_shape env u m in_args kwds cands.length
                (cands.map Option.some)).2 (by rw [hr])
            rw [hr] at e1
            exact ⟨pre, last, e1, e2, e3⟩

/-- Witness for C4: handler 100 declines, handler 101 accepts with `7`;
the result is `7` and the accepting invocation is the last one. -/
theorem C4_short_circuit_witness :
    (PyUFunc_CheckOverride envMix 7 "__call__" [⟨1, 0⟩, ⟨2, 1⟩]
        Option.none Option.none [] 0 Option.none).outcome =
      Outcome.success (Val.int 7) ∧
    (∃ pre last, (PyUFunc_CheckOverride envMix 7 "__call__"
        [⟨1, 0⟩, ⟨2, 1⟩] Option.none Option.none [] 0
        Option.none).trace = pre ++ [last] ∧
      envMix.behavior last.cand.hid = HandlerResult.value (Val.int 7) ∧
      ∀ r ∈ pre, envMix.behavior r.cand.hid =
        HandlerResult.notImplemented) :=
  ⟨by decide,
    (C4_short_circuit envMix 7 "__call__" [⟨1, 0⟩, ⟨2, 1⟩] Option.none
      Option.none [] 0 Option.none).1 (Val.int 7) (by decide)⟩

/-- Claim C5: every handler invocation receives exactly the positional
argument list `[chosen operand, operation identity, variant name,
*original input operands]` together with the normalized parameter
mapping as its named-argument set. -/
theorem C5_handler_arguments (env : Env) (u : Nat) (m : String)
    (in_args : List Operand) (out_args : Option (List Operand))
    (wheremask : Option Operand) (args : List Val) (lenArgs : Nat)
    (kwnames : Option (List String)) (kwds : Dict)
    (hk : buildNormalKwds m out_args args lenArgs kwnames =
      Option.some kwds) :
    ∀ r ∈ (PyUFunc_CheckOverride env u m in_args out_args wheremask args
        lenArgs kwnames).trace,
      r.posArgs = Val.opVal r.cand.op.oid :: Val.ufuncVal u :: Val.str m ::
        in_args.map (fun o => Val.opVal o.oid) ∧
      r.kwds = kwds := by
  cases hg : get_array_ufunc_overrides env in_args out_args wheremask with
  | mk res e =>
  cases res with
  | error t =>
    rw [checkOverride_error_eq env u m in_args out_args wheremask args
      lenArgs kwnames t e hg]
    intro r hr; simp at hr
  | ok cands =>
    rw [checkOverride_ok_eq env u m in_args out_args wheremask args
      lenArgs kwnames cands e hg]
    by_cases he : cands.isEmpty = true
    · rw [if_pos he]
      intro r hr; simp at hr
    · rw [if_neg he]
      split
      · rename_i hnone
        exact absurd (hk.symm.trans hnone) (by simp)
      · rename_i kwds' hsome
        obtain rfl := Option.some.inj (hk.symm.trans hsome)
        split
        all_goals
          rename_i hr
          intro r hmem
          obtain ⟨h1, h2, _⟩ := runLoop_args env u m in_args kwds
            cands.length (cands.map Option.some) r
            (by rw [hr]; exact hmem)
          exact ⟨h1, h2⟩

/-- Witness for C5 on the two-candidate scenario: both invocations carry
`(chosen operand, ufunc 7, "__call__", inputs 1 and 2)` and the empty
normalized mapping. -/
theorem C5_handler_arguments_witness :
    buildNormalKwds "__call__" Option.none [] 0 Option.none =
      Option.some [] ∧
    ∀ r ∈ (PyUFunc_CheckOverride envMix 7 "__call__" [⟨1, 0⟩, ⟨2, 1⟩]
        Option.none Option.none [] 0 Option.none).trace,
      r.posArgs = Val.opVal r.cand.op.oid :: Val.ufuncVal 7 ::
        Val.str "__call__" ::
        [(⟨1, 0⟩ : Operand), ⟨2, 1⟩].map (fun o => Val.opVal o.oid) ∧
      r.kwds = [] :=
  ⟨by decide,
    C5_handler_arguments envMix 7 "__call__" [⟨1, 0⟩, ⟨2, 1⟩] Option.none
      Option.none [] 0 Option.none [] (by decide)⟩

/-- Claim C3: when at least one candidate is collected and every
candidate's handler declines, each distinct candidate's handler is
invoked exactly once and resolution fails with the unhandled-override
error built from the operation identity, variant name, original inputs,
and normalized parameters. -/
theorem C3_all_decline_each_once (env : Env) (u : Nat) (m : String)
    (in_args : List Operand) (out_args : Option (List Operand))
    (wheremask : Option Operand) (args : List Val) (lenArgs : Nat)
    (kwnames : Option (List String)) (cands : List Cand)
    (evs : List RefEvent) (kwds : Dict)
    (hc : get_array_ufunc_overrides env in_args out_args wheremask =
      (Except.ok cands, evs))
    (hne : cands ≠ [])
    (hk : buildNormalKwds m out_args args lenArgs kwnames =
      Option.some kwds)
    (hdecl : ∀ c ∈ cands, env.behavior c.hid =
      HandlerResult.notImplemented) :
    (PyUFunc_CheckOverride env u m in_args out_args wheremask args
        lenArgs kwnames).outcome = Outcome.unhandled u m in_args kwds ∧
    (∀ c ∈ cands, (PyUFunc_CheckOverride env u m in_args out_args
        wheremask args lenArgs kwnames).trace.count
        (mkRecord u m in_args kwds c) = 1) ∧
    (PyUFunc_CheckOverride env u m in_args out_args wheremask args
        lenArgs kwnames).trace.length = cands.length := by
  have hfuel : countRemaining (cands.map Option.some) ≤ cands.length := by
    simp [countRemaining]
  have hdecl' : ∀ c : Cand, Option.some c ∈ cands.map Option.some →
      env.behavior c.hid = HandlerResult.notImplemented := by
    intro c hmem
    obtain ⟨c', hc', heq⟩ := List.mem_map.mp hmem
    exact (Option.some.inj heq) ▸ hdecl c' hc'
  obtain ⟨hres, hperm⟩ := runLoop_all_decline env u m in_args kwds
    cands.length (cands.map Option.some) hfuel hdecl'
  have hpairwise :
      List.Pairwise (fun a b : Cand => a.op.ty ≠ b.op.ty) cands := by
    unfold get_array_ufunc_overrides at hc
    exact (collectAux_ok env (scannedArgs in_args out_args wheremask)
      [] [] evs [] cands hc (by simp) (by simp) (by simp) (by simp)).2.1
  have hnodup : cands.Nodup :=
    hpairwise.imp (fun hne' heq => hne' (by rw [heq]))
  have hinj :
      Function.Injective (mkRecord u m in_args kwds) := by
    intro a b hab
    exact congrArg CallRecord.cand hab
  have hmapnodup : (cands.map (mkRecord u m in_args kwds)).Nodup :=
    hnodup.map hinj
  have hpermc : List.Perm
      (runLoop env u m in_args kwds cands.length
        (cands.map Option.some)).1
      (cands.map (mkRecord u m in_args kwds)) := by
    simpa using hperm
  have hie : cands.isEmpty = false := by simp [List.isEmpty_iff, hne]
  cases hr : runLoop env u m in_args kwds cands.length
      (cands.map Option.some) with
  | mk tr lres =>
    rw [hr] at hres hpermc
    simp only at hres
    subst hres
    have hmain : PyUFunc_CheckOverride env u m in_args out_args wheremask
        args lenArgs kwnames =
        ⟨tr, Outcome.unhandled u m in_args kwds, evs⟩ := by
      rw [checkOverride_ok_eq env u m in_args out_args wheremask args
        lenArgs kwnames cands evs hc]
      rw [if_neg (by rw [hie]; exact fun hh => Bool.noConfusion hh)]
      split
      · rename_i hnone
        exact absurd (hk.symm.trans hnone) (by simp)
      · rename_i kwds' hsome
        obtain rfl := Option.some.inj (hk.symm.trans hsome)
        split
        · rename_i tr' hr'
          have h2 := hr'.symm.trans hr
          simp only [Prod.mk.injEq] at h2
          rw [h2.1]
        · rename_i tr' v' hr'
          have h2 := hr'.symm.trans hr
          simp only [Prod.mk.injEq] at h2
          exact absurd h2.2 (by simp)
        · rename_i tr' hr'
          have h2 := hr'.symm.trans hr
          simp only [Prod.mk.injEq] at h2
          exact absurd h2.2 (by simp)
    rw [hmain]
    refine ⟨rfl, ?_, ?_⟩
    · intro c hcmem
      have h1 : (cands.map (mkRecord u m in_args kwds)).count
          (mkRecord u m in_args kwds c) = 1 :=
        List.count_eq_one_of_mem hmapnodup
          (List.mem_map_of_mem (mkRecord u m in_args kwds) hcmem)
      rw [hpermc.count_eq, h1]
    · rw [hpermc.length_eq, List.length_map]

/-- Witness for C3: both candidates decline; each handler is invoked
exactly once and the call fails with the unhandled-override error. -/
theorem C3_all_decline_each_once_witness :
    (get_array_ufunc_overrides envSub [opA, opB] Option.none Option.none =
        (Except.ok [⟨opA, 100⟩, ⟨opB, 101⟩],
          [RefEvent.acqMeth 100, RefEvent.acqOp 10,
            RefEvent.acqMeth 101, RefEvent.acqOp 11]) ∧
      ([(⟨opA, 100⟩ : Cand), ⟨opB, 101⟩] ≠ []) ∧
      buildNormalKwds "__call__" Option.none [] 0 Option.none =
        Option.some [] ∧
      (∀ c ∈ [(⟨opA, 100⟩ : Cand), ⟨opB, 101⟩],
        envSub.behavior c.hid = HandlerResult.notImplemented)) ∧
    ((PyUFunc_CheckOverride envSub 7 "__call__" [opA, opB] Option.none
        Option.none [] 0 Option.none).outcome =
      Outcome.unhandled 7 "__call__" [opA, opB] [] ∧
    (∀ c ∈ [(⟨opA, 100⟩ : Cand), ⟨opB, 101⟩],
      (PyUFunc_CheckOverride envSub 7 "__call__" [opA, opB] Option.none
          Option.none [] 0 Option.none).trace.count
        (mkRecord 7 "__call__" [opA, opB] [] c) = 1) ∧
    (PyUFunc_CheckOverride envSub 7 "__call__" [opA, opB] Option.none
        Option.none [] 0 Option.none).trace.length =
      ([(⟨opA, 100⟩ : Cand), ⟨opB, 101⟩]).length) :=
  ⟨⟨by rfl, by decide, by decide, by decide⟩,
    C3_all_decline_each_once envSub 7 "__call__" [opA, opB] Option.none
      Option.none [] 0 Option.none [⟨opA, 100⟩, ⟨opB, 101⟩]
      [RefEvent.acqMeth 100, RefEvent.acqOp 10, RefEvent.acqMeth 101,
        RefEvent.acqOp 11] [] (by rfl) (by decide) (by decide) (by decide)⟩

end Override
